import Mathlib

/-!
Verification development for the lab-PC monitoring server
(`monitoring_system/server.py`).

The server keeps a registry of per-client snapshot records fed by a TCP
listener that frames newline-delimited JSON, and projects liveness at read
time from a monotonic clock.  This file shallowly embeds the registry data
model (`ClientState`, `MonitoringRegistry`), the message-application logic
(`apply_snapshot`, `upsert`, `to_payload`, `snapshot`) and the per-connection
line-framing loop (`_handle_client`), and proves the specified properties.

Python dynamic values are modelled by `PyValue` (the values `json.loads` can
produce); Python truthiness (`a or b`), `dict.get`, `str(...)` and `str.strip`
are modelled explicitly.  The two clocks are injected as parameters:
`nowMono : ℚ` models `time.monotonic()` and `nowIso : String` models
`utc_now_iso()`.  Machine floats are modelled as rationals.
-/

/-- Python values produced by `json.loads` (and stored in records):
`None`, booleans, ints, floats, strings, lists, and string-keyed dicts. -/
inductive PyValue where
  | none : PyValue
  | bool : Bool → PyValue
  | int : ℤ → PyValue
  | float : ℚ → PyValue
  | str : String → PyValue
  | list : List PyValue → PyValue
  | dict : List (String × PyValue) → PyValue

/-- A parsed JSON object as Python dict: insertion-ordered association list
with string keys (duplicate keys resolved by the decoder, last wins). -/
abbrev PyDict := List (String × PyValue)

/-- Python truthiness: `None`, `False`, `0`, `0.0`, `""`, `[]`, `{}` are falsy. -/
def PyValue.truthy : PyValue → Bool
  | .none => false
  | .bool b => b
  | .int n => n ≠ 0
  | .float q => q ≠ 0
  | .str s => s ≠ ""
  | .list xs => !xs.isEmpty
  | .dict xs => !xs.isEmpty

/-- Python `a or b`: `a` if truthy, else `b`. -/
def pyOr (a b : PyValue) : PyValue := if a.truthy then a else b

/-- Python `d.get(k)`: the stored value, or `None` when the key is absent.
(A stored JSON `null` is already `PyValue.none`, exactly as in Python.) -/
def pyGet (d : PyDict) (k : String) : PyValue :=
  match d.lookup k with
  | some v => v
  | Option.none => .none

/-- Model of Python float formatting (`str(float)`); the exact shortest
round-trip decimal rendering of CPython is abstracted by `toString` on ℚ. -/
def floatRepr (q : ℚ) : String := toString q

mutual

/-- Python `repr(...)`, used by `str` on lists and dicts. String escaping
inside `repr` of a string is abstracted to plain quoting. -/
def pyRepr : PyValue → String
  | .none => "None"
  | .bool b => if b then "True" else "False"
  | .int n => toString n
  | .float q => floatRepr q
  | .str s => "\x27" ++ s ++ "\x27"
  | .list xs => "[" ++ String.intercalate ", " (pyReprList xs) ++ "]"
  | .dict xs => "\x7b" ++ String.intercalate ", " (pyReprDict xs) ++ "\x7d"

/-- Renders each element of a Python list for `pyRepr`. -/
def pyReprList : List PyValue → List String
  | [] => []
  | x :: xs => pyRepr x :: pyReprList xs

/-- Renders each `key: value` entry of a Python dict for `pyRepr`. -/
def pyReprDict : List (String × PyValue) → List String
  | [] => []
  | (k, v) :: xs => ("\x27" ++ k ++ "\x27: " ++ pyRepr v) :: pyReprDict xs

end

/-- Python `str(...)`: identity on strings, `repr` otherwise. -/
def pyStr : PyValue → String
  | .str s => s
  | v => pyRepr v

/-- One snapshot record (`ClientState` dataclass).  Fields that the source
assigns raw `message.get(...)` results to are `PyValue` (Python does not
enforce the dataclass annotations); `client_id` and `ip_address` are always
`str` in the source, `port` always `int`. -/
structure ClientState where
  client_id : String
  pc_name : PyValue
  ip_address : String
  port : ℤ
  status : PyValue
  current_user : PyValue
  session_type : PyValue
  gpu_usage_percent : PyValue
  gpu_memory_used_mb : PyValue
  gpu_name : PyValue
  last_reported_at : PyValue
  last_seen_monotonic : ℚ

/-- Dataclass construction as performed in `MonitoringRegistry.upsert`:
only `client_id`, `pc_name`, `ip_address`, `port` are passed; the remaining
fields take their dataclass defaults (`status="offline"`, `None`s,
`last_reported_at=utc_now_iso()`, `last_seen_monotonic=time.monotonic()`). -/
def ClientState.init (client_id : String) (pc_name : String) (ip_address : String)
    (port : ℤ) (nowIso : String) (nowMono : ℚ) : ClientState :=
  { client_id := client_id
    pc_name := .str pc_name
    ip_address := ip_address
    port := port
    status := .str "offline"
    current_user := .none
    session_type := .none
    gpu_usage_percent := .none
    gpu_memory_used_mb := .none
    gpu_name := .none
    last_reported_at := .str nowIso
    last_seen_monotonic := nowMono }

/-- `ClientState.apply_snapshot` (server.py lines 43-54), line for line.
`message.get("timestamp") or utc_now_iso()` is modelled with the injected
wall clock `nowIso`; `time.monotonic()` with `nowMono`. -/
def ClientState.apply_snapshot (self : ClientState) (message : PyDict)
    (ip_address : String) (port : ℤ) (nowIso : String) (nowMono : ℚ) : ClientState :=
  { self with
    pc_name := pyOr (pyGet message "pc_name") self.pc_name
    ip_address := ip_address
    port := port
    status := pyOr (pyGet message "status") (.str "online")
    current_user := pyGet message "current_user"
    session_type := pyGet message "session_type"
    gpu_usage_percent := pyGet message "gpu_usage_percent"
    gpu_memory_used_mb := pyGet message "gpu_memory_used_mb"
    gpu_name := pyGet message "gpu_name"
    last_reported_at := pyOr (pyGet message "timestamp") (.str nowIso)
    last_seen_monotonic := nowMono }

/-- Round-half-to-even on rationals, modelling Python `round` on the exact
value (CPython rounds floats half-to-even). -/
def roundHalfEven (q : ℚ) : ℤ :=
  let f : ℤ := ⌊q⌋
  let r : ℚ := q - f
  if r < 1/2 then f
  else if 1/2 < r then f + 1
  else if Even f then f else f + 1

/-- Python `round(x, 1)`: rounding to one decimal place, half to even. -/
def pyRound1 (q : ℚ) : ℚ := (roundHalfEven (10 * q) : ℚ) / 10

/-- The JSON-serialisable per-record payload built by `to_payload`. -/
structure ClientPayload where
  client_id : String
  pc_name : PyValue
  ip_address : String
  port : ℤ
  status : PyValue
  current_user : PyValue
  session_type : PyValue
  gpu_usage_percent : PyValue
  gpu_memory_used_mb : PyValue
  gpu_name : PyValue
  last_reported_at : PyValue
  seconds_since_last_seen : ℚ

/-- `ClientState.to_payload` (server.py lines 56-72): computes
`elapsed = time.monotonic() - last_seen_monotonic`, projects the status,
and rounds the age to one decimal. -/
def ClientState.to_payload (self : ClientState) (offline_after_seconds : ℤ)
    (nowMono : ℚ) : ClientPayload :=
  let elapsed : ℚ := nowMono - self.last_seen_monotonic
  let computed_status : PyValue :=
    if elapsed ≤ (offline_after_seconds : ℚ) then self.status else .str "offline"
  { client_id := self.client_id
    pc_name := self.pc_name
    ip_address := self.ip_address
    port := self.port
    status := computed_status
    current_user := self.current_user
    session_type := self.session_type
    gpu_usage_percent := self.gpu_usage_percent
    gpu_memory_used_mb := self.gpu_memory_used_mb
    gpu_name := self.gpu_name
    last_reported_at := self.last_reported_at
    seconds_since_last_seen := pyRound1 elapsed }

/-- The registry: offline threshold plus the `_clients` dict, modelled as an
insertion-ordered association list (Python dict iteration order). -/
structure MonitoringRegistry where
  offline_after_seconds : ℤ
  clients : List (String × ClientState)

/-- Python dict assignment `d[k] = v`: update in place if the key exists
(iteration order preserved), else append at the end. -/
def dictSet {α : Type} (xs : List (String × α)) (k : String) (v : α) :
    List (String × α) :=
  match xs with
  | [] => [(k, v)]
  | (k', v') :: rest =>
      if k' = k then (k', v) :: rest else (k', v') :: dictSet rest k v

/-- Identity derivation in `upsert` (server.py line 82):
`str(message.get("client_id") or message.get("pc_name") or ip_address)`. -/
def deriveClientId (message : PyDict) (ip_address : String) : String :=
  pyStr (pyOr (pyGet message "client_id") (pyOr (pyGet message "pc_name") (.str ip_address)))

/-- `MonitoringRegistry.upsert` (server.py lines 81-95): derive the id and
display name, look up or create the record, then `apply_snapshot`.
Returns the new registry together with the updated record. -/
def MonitoringRegistry.upsert (reg : MonitoringRegistry) (message : PyDict)
    (ip_address : String) (port : ℤ) (nowIso : String) (nowMono : ℚ) :
    MonitoringRegistry × ClientState :=
  let client_id := deriveClientId message ip_address
  let pc_name := pyStr (pyOr (pyGet message "pc_name") (.str client_id))
  let client0 : ClientState :=
    match reg.clients.lookup client_id with
    | some c => c
    | Option.none => ClientState.init client_id pc_name ip_address port nowIso nowMono
  let client := client0.apply_snapshot message ip_address port nowIso nowMono
  ({ reg with clients := dictSet reg.clients client_id client }, client)

/-- The aggregate view built by `MonitoringRegistry.snapshot`. -/
structure AggregateView where
  generated_at : String
  offline_after_seconds : ℤ
  clients : List ClientPayload

/-- Python `s.lower()` on a string: character-wise lowering (the ASCII part
of CPython's Unicode lowering, which covers the intended machine names). -/
def pyLower (s : String) : String := String.mk (s.data.map Char.toLower)

/-- Lexicographic comparison of character lists by code point, the order
Python uses to compare strings. -/
def charListLe : List Char → List Char → Bool
  | [], _ => true
  | _ :: _, [] => false
  | a :: as, b :: bs => if a = b then charListLe as bs else decide (a < b)

/-- Python `a <= b` on strings: lexicographic by code point
(agrees with Lean's `≤` on `String`, see `pyStrLe_iff`). -/
def pyStrLe (a b : String) : Bool := charListLe a.data b.data

/-- Python `item.pc_name.lower()`: succeeds only when `pc_name` is a string,
otherwise raises `AttributeError` (the dataclass annotation is not enforced,
so a report with a truthy non-string `pc_name` can store one). -/
def pyLowerName (v : PyValue) : Except String String :=
  match v with
  | .str s => .ok (pyLower s)
  | _ => .error "AttributeError"

/-- Key extraction pass of Python `sorted(values, key=...)`: the key function
runs once per element, in iteration order; the first failure propagates. -/
def keyedClients : List ClientState → Except String (List (String × ClientState))
  | [] => .ok []
  | c :: cs =>
      match pyLowerName c.pc_name with
      | .error e => .error e
      | .ok k =>
          match keyedClients cs with
          | .error e => .error e
          | .ok rest => .ok ((k, c) :: rest)

/-- `MonitoringRegistry.snapshot` (server.py lines 97-107): sorts the records
case-insensitively by `pc_name` (Python's stable `sorted` is modelled by a
stable insertion sort on the precomputed keys), maps them through
`to_payload`, and wraps them with the generation timestamp and threshold.
Modelled in state-passing style to make explicit that the stored registry is
returned unchanged; the result is `Except` because the Python key function
can raise. -/
def MonitoringRegistry.snapshot (reg : MonitoringRegistry) (nowIso : String)
    (nowMono : ℚ) : MonitoringRegistry × Except String AggregateView :=
  let res : Except String AggregateView :=
    match keyedClients (reg.clients.map Prod.snd) with
    | .error e => .error e
    | .ok keyed =>
        let sortedClients :=
          (List.insertionSort (fun a b => pyStrLe a.1 b.1 = true) keyed).map Prod.snd
        .ok { generated_at := nowIso
              offline_after_seconds := reg.offline_after_seconds
              clients :=
                sortedClients.map
                  (fun c => c.to_payload reg.offline_after_seconds nowMono) }
  (reg, res)

/-- JSON whitespace accepted between tokens by `json.loads`. -/
def jsonWs (c : Char) : Bool :=
  c = ' ' || c = '\t' || c = '\n' || c = '\r'

/-- Drops leading JSON whitespace. -/
def skipWs : List Char → List Char
  | [] => []
  | c :: cs => if jsonWs c then skipWs cs else c :: cs

/-- Numeric value of a decimal digit character. -/
def digitVal (c : Char) : ℕ := c.toNat - 48

/-- Splits off the longest leading run of decimal digits. -/
def takeDigits : List Char → List Char × List Char
  | [] => ([], [])
  | c :: cs =>
      if c.isDigit then
        let (d, r) := takeDigits cs
        (c :: d, r)
      else ([], c :: cs)

/-- Reads a digit run as a natural number. -/
def digitsToNat (ds : List Char) : ℕ :=
  ds.foldl (fun acc c => 10 * acc + digitVal c) 0

/-- Decodes the optional fraction part `.digits` of a JSON number: returns
the fractional value and the remaining input, or an error on a bare dot. -/
def decodeFraction (s : List Char) : Except String (Option ℚ × List Char) :=
  match s with
  | '.' :: rest =>
      let (fds, r) := takeDigits rest
      if fds.isEmpty then .error "Expecting value"
      else .ok (some ((digitsToNat fds : ℚ) / ((10 : ℚ) ^ fds.length)), r)
  | _ => .ok (Option.none, s)

/-- Decodes the optional exponent part `[eE][+-]?digits` of a JSON number. -/
def decodeExponent (s : List Char) : Except String (Option ℤ × List Char) :=
  match s with
  | c :: rest =>
      if c = 'e' || c = 'E' then
        let (sign, rest2) : ℤ × List Char :=
          match rest with
          | '+' :: r => (1, r)
          | '-' :: r => (-1, r)
          | r => (1, r)
        let (eds, r) := takeDigits rest2
        if eds.isEmpty then .error "Expecting value"
        else .ok (some (sign * (digitsToNat eds : ℤ)), r)
      else .ok (Option.none, c :: rest)
  | [] => .ok (Option.none, [])

/-- Decodes a JSON number per the JSON grammar: optional minus, integer part
without redundant leading zeros, optional fraction and exponent.  A plain
integer literal yields a Python `int`, anything with a fraction or exponent a
Python `float` (modelled exactly as a rational). -/
def decodeNumber (s : List Char) : Except String (PyValue × List Char) :=
  let (neg, s1) : Bool × List Char :=
    match s with
    | '-' :: rest => (true, rest)
    | _ => (false, s)
  let (ints, s2) := takeDigits s1
  if ints.isEmpty then .error "Expecting value"
  else if ints.length > 1 && ints.head? = some '0' then .error "Expecting value"
  else
    match decodeFraction s2 with
    | .error e => .error e
    | .ok (fracPart, s3) =>
        match decodeExponent s3 with
        | .error e => .error e
        | .ok (expPart, s4) =>
            let sign : ℚ := if neg then -1 else 1
            match fracPart, expPart with
            | Option.none, Option.none =>
                .ok (.int ((if neg then -1 else 1) * (digitsToNat ints : ℤ)), s4)
            | _, _ =>
                let mant : ℚ := (digitsToNat ints : ℚ) + (fracPart.getD 0)
                let ex : ℤ := expPart.getD 0
                .ok (.float (sign * mant * (10 : ℚ) ^ ex), s4)

/-- Translates a single-character JSON string escape. -/
def escChar (c : Char) : Option Char :=
  if c = '"' then some '"'
  else if c = '\\' then some '\\'
  else if c = '/' then some '/'
  else if c = 'b' then some '\x08'
  else if c = 'f' then some '\x0c'
  else if c = 'n' then some '\n'
  else if c = 'r' then some '\r'
  else if c = 't' then some '\t'
  else Option.none

/-- Value of a hexadecimal digit, if any. -/
def hexVal (c : Char) : Option ℕ :=
  if '0' ≤ c && c ≤ '9' then some (c.toNat - 48)
  else if 'a' ≤ c && c ≤ 'f' then some (c.toNat - 87)
  else if 'A' ≤ c && c ≤ 'F' then some (c.toNat - 55)
  else Option.none

/-- Decodes the body of a JSON string after the opening quote, handling the
standard escapes and `\uXXXX` (surrogate pairing is abstracted away). -/
def decodeStringBody : List Char → List Char → Except String (String × List Char)
  | [], _ => .error "Unterminated string"
  | c :: cs, acc =>
      if c = '"' then .ok (String.mk acc.reverse, cs)
      else if c = '\\' then
        match cs with
        | [] => .error "Unterminated string"
        | 'u' :: h1 :: h2 :: h3 :: h4 :: rest =>
            match hexVal h1, hexVal h2, hexVal h3, hexVal h4 with
            | some a, some b, some d, some e =>
                let n := ((a * 16 + b) * 16 + d) * 16 + e
                if h : n.isValidChar then
                  decodeStringBody rest (Char.ofNatAux n h :: acc)
                else .error "Invalid \\uXXXX escape"
            | _, _, _, _ => .error "Invalid \\uXXXX escape"
        | e :: rest =>
            match escChar e with
            | some c' => decodeStringBody rest (c' :: acc)
            | Option.none => .error "Invalid \\escape"
      else decodeStringBody cs (c :: acc)

mutual

/-- Decodes one JSON value, modelling `json.loads`' recursive-descent
decoder; `fuel` bounds the nesting depth (any fuel at least the input
length suffices). -/
def decodeValue : ℕ → List Char → Except String (PyValue × List Char)
  | 0, _ => .error "Nesting too deep"
  | f + 1, s =>
      match skipWs s with
      | [] => .error "Expecting value"
      | 't' :: 'r' :: 'u' :: 'e' :: rest => .ok (.bool true, rest)
      | 'f' :: 'a' :: 'l' :: 's' :: 'e' :: rest => .ok (.bool false, rest)
      | 'n' :: 'u' :: 'l' :: 'l' :: rest => .ok (.none, rest)
      | '"' :: rest =>
          match decodeStringBody rest [] with
          | .error e => .error e
          | .ok (str, r) => .ok (.str str, r)
      | '[' :: rest => decodeArrayItems f rest []
      | '\x7b' :: rest => decodeObjectItems f rest []
      | other => decodeNumber other

/-- Decodes the items of a JSON array after `[`, accumulating in reverse. -/
def decodeArrayItems : ℕ → List Char → List PyValue → Except String (PyValue × List Char)
  | 0, _, _ => .error "Nesting too deep"
  | f + 1, s, acc =>
      match skipWs s with
      | ']' :: rest =>
          if acc.isEmpty then .ok (.list [], rest) else .error "Expecting value"
      | _ =>
          match decodeValue f (skipWs s) with
          | .error e => .error e
          | .ok (v, r) =>
              match skipWs r with
              | ',' :: rest => decodeArrayItems f rest (v :: acc)
              | ']' :: rest => .ok (.list (v :: acc).reverse, rest)
              | _ => .error "Expecting ',' delimiter"

/-- Decodes the entries of a JSON object after the opening brace;
duplicate keys are resolved like Python dicts: the last wins. -/
def decodeObjectItems : ℕ → List Char → PyDict → Except String (PyValue × List Char)
  | 0, _, _ => .error "Nesting too deep"
  | f + 1, s, acc =>
      match skipWs s with
      | '\x7d' :: rest =>
          if acc.isEmpty then .ok (.dict [], rest)
          else .error "Expecting property name enclosed in double quotes"
      | '"' :: rest =>
          match decodeStringBody rest [] with
          | .error e => .error e
          | .ok (key, r1) =>
              match skipWs r1 with
              | ':' :: r2 =>
                  match decodeValue f r2 with
                  | .error e => .error e
                  | .ok (v, r3) =>
                      match skipWs r3 with
                      | ',' :: rest2 => decodeObjectItems f rest2 (dictSet acc key v)
                      | '\x7d' :: rest2 => .ok (.dict (dictSet acc key v), rest2)
                      | _ => .error "Expecting ',' delimiter"
              | _ => .error "Expecting ':' delimiter"
      | _ => .error "Expecting property name enclosed in double quotes"

end

/-- Model of Python `json.loads`: decode one value, then require only
whitespace to remain (otherwise `Extra data`).  `.error` is a
`json.JSONDecodeError`; nonfinite literals (`NaN`, `Infinity`) are outside
the model. -/
def jsonLoads (s : String) : Except String PyValue :=
  match decodeValue (s.length + 1) s.data with
  | .error e => .error e
  | .ok (v, rest) =>
      if (skipWs rest).isEmpty then .ok v else .error "Extra data"

/-- Python `str.strip()` whitespace set (the ASCII part CPython strips). -/
def pyIsSpace (c : Char) : Bool :=
  c = ' ' || c = '\t' || c = '\n' || c = '\r' || c = '\x0b' || c = '\x0c'

/-- Python `line.strip()`: drops whitespace from both ends. -/
def pyStripLine (s : List Char) : List Char :=
  ((s.dropWhile pyIsSpace).reverse.dropWhile pyIsSpace).reverse

/-- Python `buffer.split("\n", 1)` guarded by `"\n" in buffer`: the text up
to the first newline and the rest, or nothing when no newline is present. -/
def splitFirstLine : List Char → Option (List Char × List Char)
  | [] => Option.none
  | c :: cs =>
      if c = '\n' then some ([], cs)
      else
        match splitFirstLine cs with
        | some (l, r) => some (c :: l, r)
        | Option.none => Option.none

/-- The per-connection state of `_handle_client`: the shared registry, the
receive buffer, and the uncaught exception (if any) that killed the
connection's thread. -/
structure HandlerState where
  reg : MonitoringRegistry
  buffer : List Char
  err : Option String

/-- One iteration body of the inner `while "\n" in buffer` loop: strip the
extracted line, skip it when empty, ignore it on `json.JSONDecodeError`, and
otherwise call `upsert`.  `message.get(...)` on a parsed non-dict value
raises `AttributeError`, which nothing catches. -/
def processLine (reg : MonitoringRegistry) (rawLine : List Char) (ip : String)
    (port : ℤ) (nowIso : String) (nowMono : ℚ) : Except String MonitoringRegistry :=
  let line := pyStripLine rawLine
  if line.isEmpty then .ok reg
  else
    match jsonLoads (String.mk line) with
    | .error _ => .ok reg
    | .ok (.dict message) => .ok (reg.upsert message ip port nowIso nowMono).1
    | .ok _ => .error "AttributeError"

/-- The inner `while "\n" in buffer` loop of `_handle_client`: repeatedly
extract and process complete lines; an uncaught exception aborts the loop
(and the thread) with the registry as it was before the failing call.
`fuel` bounds the number of iterations so the recursion is structural; each
iteration shortens the buffer (`splitFirstLine_length`), so the buffer
length, which callers pass, is always enough fuel. -/
def drainBuffer : ℕ → MonitoringRegistry → List Char → String → ℤ → String → ℚ →
    HandlerState
  | 0, reg, buffer, _, _, _, _ => { reg := reg, buffer := buffer, err := Option.none }
  | fuel + 1, reg, buffer, ip, port, nowIso, nowMono =>
      match splitFirstLine buffer with
      | Option.none => { reg := reg, buffer := buffer, err := Option.none }
      | some (rawLine, rest) =>
          match processLine reg rawLine ip port nowIso nowMono with
          | .error e => { reg := reg, buffer := rest, err := some e }
          | .ok reg' => drainBuffer fuel reg' rest ip port nowIso nowMono

/-- One `recv` round of `_handle_client`: append the decoded chunk to the
buffer and drain complete lines.  A dead thread (uncaught exception) receives
nothing further. -/
def handleChunk (st : HandlerState) (chunk : List Char) (ip : String) (port : ℤ)
    (nowIso : String) (nowMono : ℚ) : HandlerState :=
  match st.err with
  | some _ => st
  | Option.none =>
      drainBuffer (st.buffer ++ chunk).length st.reg (st.buffer ++ chunk)
        ip port nowIso nowMono

/-- `MonitoringServer._handle_client` (server.py lines 195-217) over the full
sequence of received chunks (UTF-8 decoding of the byte stream is abstracted:
chunks arrive as text).  When the peer closes, the loop exits and whatever
remains in the buffer is dropped without being processed. -/
def handleClient (reg : MonitoringRegistry) (chunks : List (List Char))
    (ip : String) (port : ℤ) (nowIso : String) (nowMono : ℚ) : HandlerState :=
  chunks.foldl (fun st chunk => handleChunk st chunk ip port nowIso nowMono)
    { reg := reg, buffer := [], err := Option.none }

/-- `MonitoringRegistry.__init__`: fresh registry with the configured
threshold and an empty `_clients` dict. -/
def MonitoringRegistry.init (offline_after_seconds : ℤ) : MonitoringRegistry :=
  { offline_after_seconds := offline_after_seconds, clients := [] }

/-- One accepted report in a server run: the parsed message, the connection
origin, and the server's two clocks at the moment `upsert` runs. -/
structure Report where
  message : PyDict
  ip : String
  port : ℤ
  iso : String
  mono : ℚ

/-- A sequence of accepted reports applied to the registry in order, each
with the server clocks sampled at its own acceptance time. -/
def runReports (reg : MonitoringRegistry) : List Report → MonitoringRegistry
  | [] => reg
  | r :: rest => runReports (reg.upsert r.message r.ip r.port r.iso r.mono).1 rest

/-- Every stored record was last seen no later than instant `t`: the
invariant a monotonic server clock maintains between operations. -/
def timeBounded (reg : MonitoringRegistry) (t : ℚ) : Prop :=
  ∀ p ∈ reg.clients, p.2.last_seen_monotonic ≤ t

/-- The case-insensitive display name of an emitted payload: the sort key
the specification speaks about (records that survive `snapshot` always
carry a string `pc_name`). -/
def displayKey (p : ClientPayload) : String :=
  match p.pc_name with
  | .str s => pyLower s
  | _ => ""

/-! ### Helper lemmas about the Python dict model -/

theorem dictSet_lookup_self {α : Type} (xs : List (String × α)) (k : String) (v : α) :
    (dictSet xs k v).lookup k = some v := by
  induction xs with
  | nil => simp [dictSet, List.lookup]
  | cons p rest ih =>
      obtain ⟨k', v'⟩ := p
      by_cases h : k' = k
      · subst h
        simp [dictSet, List.lookup]
      · simp only [dictSet, if_neg h, List.lookup]
        have : (k == k') = false := beq_eq_false_iff_ne.mpr (Ne.symm h)
        simp [this, ih]

theorem dictSet_lookup_ne {α : Type} (xs : List (String × α)) (k k' : String) (v : α)
    (h : k' ≠ k) : (dictSet xs k v).lookup k' = xs.lookup k' := by
  induction xs with
  | nil => simp [dictSet, List.lookup, beq_eq_false_iff_ne.mpr h]
  | cons p rest ih =>
      obtain ⟨k₀, v₀⟩ := p
      by_cases hk : k₀ = k
      · subst hk
        simp [dictSet, List.lookup, beq_eq_false_iff_ne.mpr h]
      · simp only [dictSet, if_neg hk, List.lookup]
        cases hbeq : k' == k₀ with
        | true => rfl
        | false => exact ih

theorem mem_dictSet {α : Type} {xs : List (String × α)} {k : String} {v : α}
    {p : String × α} (hp : p ∈ dictSet xs k v) : p.2 = v ∨ p ∈ xs := by
  induction xs with
  | nil => simp [dictSet] at hp; simp [hp]
  | cons q rest ih =>
      obtain ⟨k₀, v₀⟩ := q
      by_cases hk : k₀ = k
      · subst hk
        simp only [dictSet, if_pos rfl] at hp
        rcases List.mem_cons.mp hp with h | h
        · left; simp [h]
        · right; exact List.mem_cons_of_mem _ h
      · simp only [dictSet, if_neg hk] at hp
        rcases List.mem_cons.mp hp with h | h
        · right; exact h ▸ List.mem_cons_self _ _
        · rcases ih h with h' | h'
          · left; exact h'
          · right; exact List.mem_cons_of_mem _ h'

theorem dictSet_map_fst {α : Type} (xs : List (String × α)) (k : String) (v : α) :
    (dictSet xs k v).map Prod.fst =
      if k ∈ xs.map Prod.fst then xs.map Prod.fst else xs.map Prod.fst ++ [k] := by
  induction xs with
  | nil => simp [dictSet]
  | cons p rest ih =>
      obtain ⟨k₀, v₀⟩ := p
      by_cases hk : k₀ = k
      · subst hk
        simp [dictSet]
      · simp only [dictSet, if_neg hk, List.map_cons, ih]
        have hne : ¬ k = k₀ := fun h => hk h.symm
        by_cases hmem : k ∈ rest.map Prod.fst
        · simp [hmem, hne]
        · simp [hmem, hne]

theorem dictSet_nodup {α : Type} (xs : List (String × α)) (k : String) (v : α)
    (h : (xs.map Prod.fst).Nodup) : ((dictSet xs k v).map Prod.fst).Nodup := by
  rw [dictSet_map_fst]
  by_cases hmem : k ∈ xs.map Prod.fst
  · simpa [hmem] using h
  · simp only [hmem, if_false]
    exact List.Nodup.append h (List.nodup_singleton k) (by simpa using hmem)

theorem dictSet_count_one {α : Type} (xs : List (String × α)) (k : String) (v : α)
    (h : (xs.map Prod.fst).Nodup) : ((dictSet xs k v).map Prod.fst).count k = 1 := by
  rw [dictSet_map_fst]
  by_cases hmem : k ∈ xs.map Prod.fst
  · simp only [hmem, if_true]
    exact List.count_eq_one_of_mem h hmem
  · simp only [hmem, if_false]
    rw [List.count_append]
    simp [List.count_eq_zero_of_not_mem hmem]

theorem lookup_mem {α : Type} {xs : List (String × α)} {k : String} {c : α}
    (h : xs.lookup k = some c) : (k, c) ∈ xs := by
  induction xs with
  | nil => simp [List.lookup] at h
  | cons p rest ih =>
      obtain ⟨k₀, v₀⟩ := p
      simp only [List.lookup] at h
      cases hbeq : k == k₀ with
      | true =>
          rw [hbeq] at h
          simp only [Option.some.injEq] at h
          have : k = k₀ := beq_iff_eq.mp hbeq
          subst this
          subst h
          exact List.mem_cons_self _ _
      | false =>
          rw [hbeq] at h
          exact List.mem_cons_of_mem _ (ih h)

/-! ### Helper lemmas about line framing -/

theorem splitFirstLine_length {s l r : List Char}
    (h : splitFirstLine s = some (l, r)) : r.length < s.length := by
  induction s generalizing l r with
  | nil => simp [splitFirstLine] at h
  | cons c cs ih =>
      by_cases hc : c = '\n'
      · simp only [splitFirstLine, if_pos hc, Option.some.injEq, Prod.mk.injEq] at h
        rw [← h.2]
        exact Nat.lt_succ_self _
      · cases hsplit : splitFirstLine cs with
        | none =>
            simp only [splitFirstLine, if_neg hc, hsplit] at h
            exact absurd h (by simp)
        | some p =>
            obtain ⟨l', r'⟩ := p
            simp only [splitFirstLine, if_neg hc, hsplit, Option.some.injEq,
              Prod.mk.injEq] at h
            rw [← h.2]
            exact Nat.lt_succ_of_lt (ih hsplit)

theorem splitFirstLine_eq_none {s : List Char} :
    splitFirstLine s = Option.none ↔ '\n' ∉ s := by
  induction s with
  | nil => simp [splitFirstLine]
  | cons c cs ih =>
      simp only [splitFirstLine]
      by_cases hc : c = '\n'
      · simp [hc]
      · cases hsplit : splitFirstLine cs with
        | none =>
            simp only [hc, if_false, List.mem_cons, hsplit]
            have hne : ¬ ('\n' = c) := fun h => hc h.symm
            simp [ih.mp hsplit, hne]
        | some p =>
            obtain ⟨l, r⟩ := p
            simp only [hc, if_false, List.mem_cons, hsplit]
            have : '\n' ∈ cs := by
              by_contra hmem
              rw [ih.mpr hmem] at hsplit
              exact absurd hsplit (by simp)
            simp [this]

theorem drainBuffer_no_newline (f : ℕ) (reg : MonitoringRegistry) (b : List Char)
    (ip : String) (port : ℤ) (iso : String) (mono : ℚ)
    (h : splitFirstLine b = Option.none) :
    drainBuffer f reg b ip port iso mono =
      { reg := reg, buffer := b, err := Option.none } := by
  cases f with
  | zero => rfl
  | succ f => simp [drainBuffer, h]

theorem drainBuffer_ok_no_newline :
    ∀ (f : ℕ) (b : List Char) (reg : MonitoringRegistry) (ip : String) (port : ℤ)
      (iso : String) (mono : ℚ), b.length ≤ f →
      (drainBuffer f reg b ip port iso mono).err = Option.none →
      splitFirstLine (drainBuffer f reg b ip port iso mono).buffer = Option.none := by
  intro f
  induction f with
  | zero =>
      intro b reg ip port iso mono hlen _
      have : b = [] := List.length_eq_zero.mp (Nat.le_zero.mp hlen)
      subst this
      rfl
  | succ f ih =>
      intro b reg ip port iso mono hlen herr
      cases hsplit : splitFirstLine b with
      | none =>
          simp only [drainBuffer, hsplit]
      | some p =>
          obtain ⟨rawLine, rest⟩ := p
          have hrest : rest.length ≤ f := by
            have := splitFirstLine_length hsplit
            omega
          cases hproc : processLine reg rawLine ip port iso mono with
          | error e =>
              exfalso
              simp only [drainBuffer, hsplit, hproc] at herr
              exact absurd herr (by simp)
          | ok reg' =>
              simp only [drainBuffer, hsplit, hproc] at herr ⊢
              exact ih rest reg' ip port iso mono hrest herr

theorem handleClient_snoc (reg : MonitoringRegistry) (chunks : List (List Char))
    (c : List Char) (ip : String) (port : ℤ) (iso : String) (mono : ℚ) :
    handleClient reg (chunks ++ [c]) ip port iso mono =
      handleChunk (handleClient reg chunks ip port iso mono) c ip port iso mono := by
  simp [handleClient, List.foldl_append]

theorem foldChunks_no_newline (ip : String) (port : ℤ) (iso : String) (mono : ℚ) :
    ∀ (chunks : List (List Char)) (st : HandlerState),
      (st.err = Option.none → splitFirstLine st.buffer = Option.none) →
      ((chunks.foldl (fun s c => handleChunk s c ip port iso mono) st).err = Option.none →
        splitFirstLine
          (chunks.foldl (fun s c => handleChunk s c ip port iso mono) st).buffer =
          Option.none) := by
  intro chunks
  induction chunks with
  | nil => intro st h; exact h
  | cons c rest ih =>
      intro st h
      simp only [List.foldl_cons]
      apply ih
      intro herr
      unfold handleChunk at herr ⊢
      cases hst : st.err with
      | some e =>
          simp only [hst] at herr ⊢
          exact absurd herr (by simp)
      | none =>
          simp only [hst] at herr ⊢
          exact drainBuffer_ok_no_newline _ _ _ _ _ _ _ (le_refl _) herr

theorem handleClient_no_newline (reg : MonitoringRegistry) (chunks : List (List Char))
    (ip : String) (port : ℤ) (iso : String) (mono : ℚ)
    (h : (handleClient reg chunks ip port iso mono).err = Option.none) :
    splitFirstLine (handleClient reg chunks ip port iso mono).buffer = Option.none := by
  exact foldChunks_no_newline ip port iso mono chunks _ (fun _ => rfl) h

/-! ### Helper lemmas about string comparison and the sort key -/

theorem charListLe_iff :
    ∀ as bs : List Char, charListLe as bs = true ↔ ¬ List.Lex (· < ·) bs as := by
  intro as
  induction as with
  | nil =>
      intro bs
      constructor
      · intro _ hlt
        exact List.Lex.not_nil_right _ _ hlt
      · intro _
        cases bs <;> rfl
  | cons a as ih =>
      intro bs
      cases bs with
      | nil =>
          constructor
          · intro hle
            exact absurd hle (by simp [charListLe])
          · intro hnlt
            exact absurd List.Lex.nil hnlt
      | cons b bs =>
          by_cases hab : a = b
          · subst hab
            constructor
            · intro hle hlt
              cases hlt with
              | cons h3 => exact (ih bs).mp (by simpa [charListLe] using hle) h3
              | rel hba => exact lt_irrefl a hba
            · intro hnlt
              simp only [charListLe, if_pos rfl]
              exact (ih bs).mpr (fun h3 => hnlt (List.Lex.cons h3))
          · simp only [charListLe, if_neg hab, decide_eq_true_eq]
            constructor
            · intro hlt hcontra
              cases hcontra with
              | cons h3 => exact absurd rfl hab
              | rel hba => exact absurd hlt (asymm hba)
            · intro hnlt
              rcases lt_trichotomy a b with hlt | heq | hgt
              · exact hlt
              · exact absurd heq hab
              · exact absurd (List.Lex.rel hgt) hnlt

theorem pyStrLe_iff (a b : String) : pyStrLe a b = true ↔ a ≤ b := by
  rw [String.le_iff_toList_le, ← not_lt]
  exact charListLe_iff a.data b.data

theorem keyedClients_mem :
    ∀ {vs : List ClientState} {keyed : List (String × ClientState)},
      keyedClients vs = .ok keyed →
      ∀ p ∈ keyed, pyLowerName p.2.pc_name = .ok p.1 := by
  intro vs
  induction vs with
  | nil =>
      intro keyed h p hp
      simp only [keyedClients, Except.ok.injEq] at h
      rw [← h] at hp
      simp at hp
  | cons c cs ih =>
      intro keyed h p hp
      simp only [keyedClients] at h
      cases hkey : pyLowerName c.pc_name with
      | error e => rw [hkey] at h; exact absurd h (by simp)
      | ok k =>
          rw [hkey] at h
          cases hrest : keyedClients cs with
          | error e => rw [hrest] at h; exact absurd h (by simp)
          | ok rest =>
              rw [hrest] at h
              simp only [Except.ok.injEq] at h
              rw [← h] at hp
              rcases List.mem_cons.mp hp with hp' | hp'
              · rw [hp']
                exact hkey
              · exact ih hrest p hp'

/-! ### Helper lemmas about rounding -/

theorem roundHalfEven_abs (q : ℚ) : |(roundHalfEven q : ℚ) - q| ≤ 1 / 2 := by
  have h0 : (⌊q⌋ : ℚ) ≤ q := Int.floor_le q
  have h1 : q < ⌊q⌋ + 1 := Int.lt_floor_add_one q
  unfold roundHalfEven
  by_cases hr1 : q - (⌊q⌋ : ℚ) < 1 / 2
  · rw [if_pos hr1, abs_le]
    constructor <;> linarith
  · rw [if_neg hr1]
    by_cases hr2 : (1 : ℚ) / 2 < q - ⌊q⌋
    · rw [if_pos hr2]
      rw [abs_le]
      push_cast
      constructor <;> linarith
    · rw [if_neg hr2]
      have heq : q - (⌊q⌋ : ℚ) = 1 / 2 := le_antisymm (not_lt.mp hr2) (not_lt.mp hr1)
      by_cases he : Even ⌊q⌋
      · rw [if_pos he, abs_le]
        constructor <;> linarith
      · rw [if_neg he, abs_le]
        push_cast
        constructor <;> linarith

theorem pyRound1_abs (q : ℚ) : |pyRound1 q - q| ≤ 1 / 20 := by
  have h := roundHalfEven_abs (10 * q)
  unfold pyRound1
  have heq : (roundHalfEven (10 * q) : ℚ) / 10 - q =
      ((roundHalfEven (10 * q) : ℚ) - 10 * q) / 10 := by ring
  rw [heq, abs_div]
  rw [show |(10 : ℚ)| = 10 by norm_num]
  linarith

/-! ### Helper lemmas about upsert and report traces -/

theorem upsert_snd_lookup (reg : MonitoringRegistry) (message : PyDict) (ip : String)
    (port : ℤ) (iso : String) (mono : ℚ) :
    (reg.upsert message ip port iso mono).1.clients.lookup (deriveClientId message ip) =
      some (reg.upsert message ip port iso mono).2 := by
  simp only [MonitoringRegistry.upsert]
  exact dictSet_lookup_self _ _ _

theorem upsert_lookup_ne (reg : MonitoringRegistry) (message : PyDict) (ip : String)
    (port : ℤ) (iso : String) (mono : ℚ) (id : String)
    (h : id ≠ deriveClientId message ip) :
    (reg.upsert message ip port iso mono).1.clients.lookup id =
      reg.clients.lookup id := by
  simp only [MonitoringRegistry.upsert]
  exact dictSet_lookup_ne _ _ _ _ h

theorem upsert_timeBounded {reg : MonitoringRegistry} {t mono : ℚ}
    (message : PyDict) (ip : String) (port : ℤ) (iso : String)
    (hb : timeBounded reg t) (ht : t ≤ mono) :
    timeBounded (reg.upsert message ip port iso mono).1 mono := by
  intro p hp
  simp only [MonitoringRegistry.upsert] at hp
  rcases mem_dictSet hp with h | h
  · rw [h]
    exact le_refl _
  · exact le_trans (hb p h) ht

theorem upsert_lookup_le {reg : MonitoringRegistry} {mono : ℚ}
    (message : PyDict) (ip : String) (port : ℤ) (iso : String)
    (hb : timeBounded reg mono)
    {id : String} {c : ClientState} (hc : reg.clients.lookup id = some c) :
    ∃ c', (reg.upsert message ip port iso mono).1.clients.lookup id = some c' ∧
      c.last_seen_monotonic ≤ c'.last_seen_monotonic := by
  by_cases hid : id = deriveClientId message ip
  · subst hid
    refine ⟨(reg.upsert message ip port iso mono).2,
      upsert_snd_lookup reg message ip port iso mono, ?_⟩
    exact hb (_, c) (lookup_mem hc)
  · exact ⟨c, by rw [upsert_lookup_ne _ _ _ _ _ _ _ hid]; exact hc, le_refl _⟩

theorem runReports_lookup_le :
    ∀ (reports : List Report) (reg : MonitoringRegistry) (t0 : ℚ),
      timeBounded reg t0 →
      List.Chain (· ≤ ·) t0 (reports.map Report.mono) →
      ∀ id c, reg.clients.lookup id = some c →
      ∃ c', (runReports reg reports).clients.lookup id = some c' ∧
        c.last_seen_monotonic ≤ c'.last_seen_monotonic := by
  intro reports
  induction reports with
  | nil =>
      intro reg t0 _ _ id c hc
      exact ⟨c, hc, le_refl _⟩
  | cons r rest ih =>
      intro reg t0 hb hchain id c hc
      simp only [List.map_cons, List.chain_cons] at hchain
      obtain ⟨h01, hchain'⟩ := hchain
      have hb' : timeBounded reg r.mono := fun p hp => le_trans (hb p hp) h01
      obtain ⟨c1, hc1, hle1⟩ := upsert_lookup_le r.message r.ip r.port r.iso hb' hc
      have hbnext : timeBounded (reg.upsert r.message r.ip r.port r.iso r.mono).1 r.mono :=
        upsert_timeBounded _ _ _ _ hb' (le_refl _)
      obtain ⟨c', hc', hle2⟩ := ih _ r.mono hbnext hchain' id c1 hc1
      exact ⟨c', by simpa [runReports] using hc', le_trans hle1 hle2⟩

/-! ### Claim theorems -/

/-- C9: `snapshot` is a pure read: for every registry state it returns the
stored registry unchanged — map and records field for field — while building
its aggregate view. -/
theorem c9_snapshot_pure_read (reg : MonitoringRegistry) (nowIso : String)
    (nowMono : ℚ) : (reg.snapshot nowIso nowMono).1 = reg := rfl

/-- C4 (code bug): a non-empty line that is valid JSON but not an object —
here `42` — is not discarded as a per-line error: `message.get` raises
`AttributeError` inside `upsert`, nothing catches it, the connection's
handler dies, and the following well-formed line is never processed, so no
record is created. -/
theorem c4_nonobject_line_kills_connection :
    (handleClient (MonitoringRegistry.init 30)
        [("42\n\x7b\"client_id\":\"a\"\x7d\n").data] "10.0.0.5" 51342 "t" 0).err =
      some "AttributeError" ∧
    (handleClient (MonitoringRegistry.init 30)
        [("42\n\x7b\"client_id\":\"a\"\x7d\n").data] "10.0.0.5" 51342 "t" 0).reg.clients =
      [] :=
  ⟨rfl, rfl⟩

/-- C5 (code bug): `apply_snapshot` stores `message.get("gpu_usage_percent")`
verbatim with no numeric validation: a non-numeric value is kept as-is (here
the string `"high"`), not degraded to null, contradicting the dataclass
annotation `float | None` and the specified 0-100-or-null invariant. -/
theorem c5_gpu_field_not_validated :
    ((MonitoringRegistry.init 30).upsert
        [("client_id", PyValue.str "a"), ("gpu_usage_percent", PyValue.str "high")]
        "10.0.0.5" 51342 "t" 0).2.gpu_usage_percent = PyValue.str "high" ∧
    ((MonitoringRegistry.init 30).upsert
        [("client_id", PyValue.str "a"), ("gpu_usage_percent", PyValue.str "high")]
        "10.0.0.5" 51342 "t" 0).2.gpu_usage_percent ≠ PyValue.none :=
  ⟨rfl, fun h => PyValue.noConfusion h⟩

/-- C10: when the message's `timestamp` is absent, JSON null, or the empty
string, the stored `last_reported_at` is exactly the server's current UTC
ISO-8601 timestamp — never null and never the previous value. -/
theorem c10_timestamp_fallback (reg : MonitoringRegistry) (message : PyDict)
    (ip : String) (port : ℤ) (nowIso : String) (nowMono : ℚ)
    (h : pyGet message "timestamp" = PyValue.none ∨
      pyGet message "timestamp" = PyValue.str "") :
    ((reg.upsert message ip port nowIso nowMono).2).last_reported_at =
      PyValue.str nowIso := by
  have htr : (pyGet message "timestamp").truthy = false := by
    rcases h with h | h <;> simp [h, PyValue.truthy]
  simp [MonitoringRegistry.upsert, ClientState.apply_snapshot, pyOr, htr]

/-- C10 witness: a concrete message with no `timestamp` key stores the
server's wall-clock string. -/
theorem c10_timestamp_fallback_witness :
    (((MonitoringRegistry.init 30).upsert [("client_id", PyValue.str "a")]
        "10.0.0.5" 51342 "2024-01-01T00:00:00+00:00" 0).2).last_reported_at =
      PyValue.str "2024-01-01T00:00:00+00:00" :=
  c10_timestamp_fallback _ _ _ _ _ _ (Or.inl rfl)

/-- C1: for a stored record, `to_payload` computes `elapsed` as the server
clock difference, reports the stored status when `elapsed` is within the
threshold and the string "offline" strictly beyond it — whatever the stored
status is — and emits `seconds_since_last_seen` equal to `elapsed` rounded
to one decimal (an integer number of tenths within 1/20 of the exact
value). -/
theorem c1_to_payload_projection (c : ClientState) (T : ℤ) (now : ℚ) :
    (now - c.last_seen_monotonic ≤ (T : ℚ) →
      (c.to_payload T now).status = c.status) ∧
    ((T : ℚ) < now - c.last_seen_monotonic →
      (c.to_payload T now).status = PyValue.str "offline") ∧
    (c.to_payload T now).seconds_since_last_seen =
      pyRound1 (now - c.last_seen_monotonic) ∧
    (∃ k : ℤ, (c.to_payload T now).seconds_since_last_seen = (k : ℚ) / 10) ∧
    |(c.to_payload T now).seconds_since_last_seen -
        (now - c.last_seen_monotonic)| ≤ 1 / 20 := by
  refine ⟨?_, ?_, rfl,
    ⟨roundHalfEven (10 * (now - c.last_seen_monotonic)), rfl⟩, ?_⟩
  · intro h
    show (if now - c.last_seen_monotonic ≤ (T : ℚ) then c.status
        else PyValue.str "offline") = c.status
    rw [if_pos h]
  · intro h
    show (if now - c.last_seen_monotonic ≤ (T : ℚ) then c.status
        else PyValue.str "offline") = PyValue.str "offline"
    rw [if_neg (not_le.mpr h)]
  · exact pyRound1_abs _

/-- C2: `upsert` derives the record key as the message's `client_id` when
that is a non-empty string, else the message's `pc_name` when that is a
non-empty string, else the source IP address; when the identity fields are
strings, null or absent and the source IP is non-empty the key is non-empty,
and the updated record is stored under that key. -/
theorem c2_identity_fallback (message : PyDict) (ip : String)
    (hcid : pyGet message "client_id" = PyValue.none ∨
      ∃ s, pyGet message "client_id" = PyValue.str s)
    (hpc : pyGet message "pc_name" = PyValue.none ∨
      ∃ s, pyGet message "pc_name" = PyValue.str s)
    (hip : ip ≠ "") :
    (∀ s, pyGet message "client_id" = PyValue.str s → s ≠ "" →
      deriveClientId message ip = s) ∧
    ((pyGet message "client_id" = PyValue.none ∨
        pyGet message "client_id" = PyValue.str "") →
      ∀ s, pyGet message "pc_name" = PyValue.str s → s ≠ "" →
        deriveClientId message ip = s) ∧
    ((pyGet message "client_id" = PyValue.none ∨
        pyGet message "client_id" = PyValue.str "") →
      (pyGet message "pc_name" = PyValue.none ∨
        pyGet message "pc_name" = PyValue.str "") →
      deriveClientId message ip = ip) ∧
    deriveClientId message ip ≠ "" ∧
    (∀ (reg : MonitoringRegistry) (port : ℤ) (iso : String) (mono : ℚ),
      (reg.upsert message ip port iso mono).1.clients.lookup
          (deriveClientId message ip) =
        some (reg.upsert message ip port iso mono).2) := by
  refine ⟨?_, ?_, ?_, ?_, fun reg port iso mono => upsert_snd_lookup _ _ _ _ _ _⟩
  · intro s hs hne
    simp [deriveClientId, pyOr, PyValue.truthy, hs, hne, pyStr]
  · intro hcid0 s hs hne
    rcases hcid0 with h | h <;>
      simp [deriveClientId, pyOr, PyValue.truthy, h, hs, hne, pyStr]
  · intro hcid0 hpc0
    rcases hcid0 with h | h <;> rcases hpc0 with h2 | h2 <;>
      simp [deriveClientId, pyOr, PyValue.truthy, h, h2, pyStr]
  · rcases hcid with h | ⟨s, hs⟩
    · rcases hpc with h2 | ⟨s2, hs2⟩
      · simpa [deriveClientId, pyOr, PyValue.truthy, h, h2, pyStr] using hip
      · by_cases he : s2 = ""
        · subst he
          simpa [deriveClientId, pyOr, PyValue.truthy, h, hs2, pyStr] using hip
        · simp [deriveClientId, pyOr, PyValue.truthy, h, hs2, he, pyStr]
    · by_cases he : s = ""
      · subst he
        rcases hpc with h2 | ⟨s2, hs2⟩
        · simpa [deriveClientId, pyOr, PyValue.truthy, hs, h2, pyStr] using hip
        · by_cases he2 : s2 = ""
          · subst he2
            simpa [deriveClientId, pyOr, PyValue.truthy, hs, hs2, pyStr] using hip
          · simp [deriveClientId, pyOr, PyValue.truthy, hs, hs2, he2, pyStr]
      · simp [deriveClientId, pyOr, PyValue.truthy, hs, he, pyStr]

/-- C2 witness: the spec's two concrete examples — `{"pc_name": "LAB-07"}`
from 10.0.0.5 with no `client_id` is keyed "LAB-07", and a message with
neither field is keyed by the source IP "10.0.0.5". -/
theorem c2_identity_fallback_witness :
    deriveClientId [("pc_name", PyValue.str "LAB-07")] "10.0.0.5" = "LAB-07" ∧
    deriveClientId [] "10.0.0.5" = "10.0.0.5" :=
  ⟨(c2_identity_fallback [("pc_name", PyValue.str "LAB-07")] "10.0.0.5"
      (Or.inl rfl) (Or.inr ⟨"LAB-07", rfl⟩) (by decide)).2.1
      (Or.inl rfl) "LAB-07" rfl (by decide),
    (c2_identity_fallback [] "10.0.0.5"
      (Or.inl rfl) (Or.inl rfl) (by decide)).2.2.1 (Or.inl rfl) (Or.inl rfl)⟩

/-- C3 (amended): after `upsert` the registry holds exactly one record under
the derived id (key uniqueness is preserved), the returned record is the
stored one, and its fields reflect the most recent message with the actual
overwrite rules: `current_user`, `session_type` and the GPU fields are
overwritten verbatim (absent or null becomes null); `status` becomes the
message's status when truthy, else "online"; `pc_name` is taken from the
message only when truthy and otherwise keeps the record's previous value;
the connection origin and server clock always overwrite `ip_address`,
`port` and `last_seen_monotonic`. -/
theorem c3_upsert_overwrite (reg : MonitoringRegistry) (message : PyDict)
    (ip : String) (port : ℤ) (iso : String) (mono : ℚ)
    (hnodup : (reg.clients.map Prod.fst).Nodup) :
    ((reg.upsert message ip port iso mono).1.clients.map Prod.fst).count
        (deriveClientId message ip) = 1 ∧
    ((reg.upsert message ip port iso mono).1.clients.map Prod.fst).Nodup ∧
    (reg.upsert message ip port iso mono).1.clients.lookup
        (deriveClientId message ip) = some (reg.upsert message ip port iso mono).2 ∧
    (reg.upsert message ip port iso mono).2.current_user =
      pyGet message "current_user" ∧
    (reg.upsert message ip port iso mono).2.session_type =
      pyGet message "session_type" ∧
    (reg.upsert message ip port iso mono).2.gpu_usage_percent =
      pyGet message "gpu_usage_percent" ∧
    (reg.upsert message ip port iso mono).2.gpu_memory_used_mb =
      pyGet message "gpu_memory_used_mb" ∧
    (reg.upsert message ip port iso mono).2.gpu_name = pyGet message "gpu_name" ∧
    (reg.upsert message ip port iso mono).2.status =
      pyOr (pyGet message "status") (PyValue.str "online") ∧
    (∀ c0, reg.clients.lookup (deriveClientId message ip) = some c0 →
      (reg.upsert message ip port iso mono).2.pc_name =
        pyOr (pyGet message "pc_name") c0.pc_name) ∧
    (reg.upsert message ip port iso mono).2.ip_address = ip ∧
    (reg.upsert message ip port iso mono).2.port = port ∧
    (reg.upsert message ip port iso mono).2.last_seen_monotonic = mono := by
  refine ⟨?_, ?_, upsert_snd_lookup _ _ _ _ _ _, rfl, rfl, rfl, rfl, rfl, rfl,
    ?_, rfl, rfl, rfl⟩
  · simp only [MonitoringRegistry.upsert]
    exact dictSet_count_one _ _ _ hnodup
  · simp only [MonitoringRegistry.upsert]
    exact dictSet_nodup _ _ _ hnodup
  · intro c0 h0
    simp only [MonitoringRegistry.upsert, h0]
    rfl

/-- C3 counterexample to the claim as stated: upserting
`{"client_id":"a","pc_name":"X"}` and then `{"client_id":"a"}` leaves
`pc_name = "X"` although the most recent message has no `pc_name` field:
the absent descriptive field is kept, not set to null. -/
theorem c3_pc_name_not_nulled :
    ((((MonitoringRegistry.init 30).upsert
          [("client_id", PyValue.str "a"), ("pc_name", PyValue.str "X")]
          "10.0.0.5" 51342 "t1" 0).1.upsert
        [("client_id", PyValue.str "a")] "10.0.0.5" 51342 "t2" 1).2.pc_name =
      PyValue.str "X") ∧
    pyGet [("client_id", PyValue.str "a")] "pc_name" = PyValue.none ∧
    ((((MonitoringRegistry.init 30).upsert
          [("client_id", PyValue.str "a"), ("pc_name", PyValue.str "X")]
          "10.0.0.5" 51342 "t1" 0).1.upsert
        [("client_id", PyValue.str "a")] "10.0.0.5" 51342 "t2" 1).2.pc_name ≠
      PyValue.none) :=
  ⟨rfl, rfl, fun h => PyValue.noConfusion h⟩

/-- C3 witness at a concrete input: a fresh registry and one message. -/
theorem c3_upsert_overwrite_witness :
    (((MonitoringRegistry.init 30).upsert [("client_id", PyValue.str "a")]
        "10.0.0.5" 51342 "t" 0).1.clients.map Prod.fst).count "a" = 1 ∧
    ((MonitoringRegistry.init 30).upsert [("client_id", PyValue.str "a")]
        "10.0.0.5" 51342 "t" 0).2.current_user = PyValue.none := by
  have h := c3_upsert_overwrite (MonitoringRegistry.init 30)
    [("client_id", PyValue.str "a")] "10.0.0.5" 51342 "t" 0 (by decide)
  exact ⟨h.1, h.2.2.2.1⟩

/-- C6: only newline-terminated byte sequences are ever parsed: a trailing
fragment containing no newline, left when the connection closes, changes
neither the registry nor the handler outcome — it is silently dropped and
never processed as a final message. -/
theorem c6_partial_line_dropped (reg : MonitoringRegistry)
    (chunks : List (List Char)) (frag : List Char) (ip : String) (port : ℤ)
    (iso : String) (mono : ℚ) (hfrag : '\n' ∉ frag) :
    (handleClient reg (chunks ++ [frag]) ip port iso mono).reg =
      (handleClient reg chunks ip port iso mono).reg ∧
    (handleClient reg (chunks ++ [frag]) ip port iso mono).err =
      (handleClient reg chunks ip port iso mono).err := by
  rw [handleClient_snoc]
  unfold handleChunk
  cases herr : (handleClient reg chunks ip port iso mono).err with
  | some e =>
      simp [herr]
  | none =>
      simp only [herr]
      have hnb : splitFirstLine
          ((handleClient reg chunks ip port iso mono).buffer ++ frag) =
          Option.none := by
        rw [splitFirstLine_eq_none]
        intro hmem
        rcases List.mem_append.mp hmem with h | h
        · exact absurd h
            (splitFirstLine_eq_none.mp (handleClient_no_newline _ _ _ _ _ _ herr))
        · exact hfrag h
      rw [drainBuffer_no_newline _ _ _ _ _ _ _ hnb]
      exact ⟨rfl, rfl⟩

/-- C6 witness: the spec's byte sequence — a complete line for "a" followed
by an incomplete fragment and connection close — creates exactly one record,
keyed "a"; the fragment creates none. -/
theorem c6_partial_line_dropped_witness :
    (handleClient (MonitoringRegistry.init 30)
        ([("\x7b\"client_id\":\"a\"\x7d\n").data] ++ [("\x7b\"client_id\"").data])
        "10.0.0.5" 51342 "t" 0).reg.clients.map Prod.fst = ["a"] := by
  rw [(c6_partial_line_dropped (MonitoringRegistry.init 30)
      [("\x7b\"client_id\":\"a\"\x7d\n").data] (("\x7b\"client_id\"").data)
      "10.0.0.5" 51342 "t" 0 (by decide)).1]
  rfl

theorem pyLowerName_ok {v : PyValue} {k : String} (h : pyLowerName v = .ok k) :
    ∃ s, v = PyValue.str s ∧ pyLower s = k := by
  cases v <;> simp [pyLowerName] at h
  exact ⟨_, rfl, h⟩

/-- C7: whenever `snapshot` produces a clients list, that list is sorted
case-insensitively by display name, whatever order the records were
inserted or updated in. -/
theorem c7_snapshot_sorted (reg : MonitoringRegistry) (nowIso : String)
    (nowMono : ℚ) (view : AggregateView)
    (h : (reg.snapshot nowIso nowMono).2 = .ok view) :
    view.clients.Pairwise (fun a b => displayKey a ≤ displayKey b) := by
  simp only [MonitoringRegistry.snapshot] at h
  cases hk : keyedClients (reg.clients.map Prod.snd) with
  | error e =>
      rw [hk] at h
      exact absurd h (by simp)
  | ok keyed =>
      rw [hk] at h
      simp only [Except.ok.injEq] at h
      have hsorted :
          (List.insertionSort (fun a b => pyStrLe a.1 b.1 = true) keyed).Pairwise
            (fun a b => pyStrLe a.1 b.1 = true) := by
        haveI : IsTotal (String × ClientState)
            (fun a b => pyStrLe a.1 b.1 = true) := ⟨fun a b => by
          rcases le_total a.1 b.1 with hle | hle
          · exact Or.inl ((pyStrLe_iff _ _).mpr hle)
          · exact Or.inr ((pyStrLe_iff _ _).mpr hle)⟩
        haveI : IsTrans (String × ClientState)
            (fun a b => pyStrLe a.1 b.1 = true) := ⟨fun a b c hab hbc =>
          (pyStrLe_iff _ _).mpr
            (le_trans ((pyStrLe_iff _ _).mp hab) ((pyStrLe_iff _ _).mp hbc))⟩
        exact List.sorted_insertionSort _ _
      have hmem : ∀ p ∈ List.insertionSort (fun a b => pyStrLe a.1 b.1 = true) keyed,
          pyLowerName p.2.pc_name = .ok p.1 := fun p hp =>
        keyedClients_mem hk p ((List.perm_insertionSort _ _).mem_iff.mp hp)
      rw [← h]
      simp only [List.map_map]
      rw [List.pairwise_map]
      refine hsorted.imp_of_mem ?_
      intro a b ha hb hr
      obtain ⟨sa, hpa, hka⟩ := pyLowerName_ok (hmem a ha)
      obtain ⟨sb, hpb, hkb⟩ := pyLowerName_ok (hmem b hb)
      have hda : displayKey ((fun c => c.to_payload reg.offline_after_seconds nowMono)
          (Prod.snd a)) = a.1 := by
        simp [displayKey, ClientState.to_payload, hpa, hka]
      have hdb : displayKey ((fun c => c.to_payload reg.offline_after_seconds nowMono)
          (Prod.snd b)) = b.1 := by
        simp [displayKey, ClientState.to_payload, hpb, hkb]
      simp only [Function.comp]
      rw [hda, hdb]
      exact (pyStrLe_iff _ _).mp hr

/-- C7 witness: a registry that received "b" before "A" snapshots to a list
sorted case-insensitively ("A" before "b"). -/
theorem c7_snapshot_sorted_witness :
    (((((MonitoringRegistry.init 30).upsert [("client_id", PyValue.str "b")]
          "10.0.0.1" 1 "t" 0).1.upsert [("client_id", PyValue.str "A")]
          "10.0.0.2" 2 "t" 0).1.snapshot "t" 5).2.toOption.get
        (by rfl)).clients.Pairwise (fun a b => displayKey a ≤ displayKey b) :=
  c7_snapshot_sorted
    ((((MonitoringRegistry.init 30).upsert [("client_id", PyValue.str "b")]
        "10.0.0.1" 1 "t" 0).1.upsert [("client_id", PyValue.str "A")]
        "10.0.0.2" 2 "t" 0).1) "t" 5 _ rfl

/-- C8: `last_seen_monotonic` is written exclusively by the server — every
`upsert` stores exactly the server's clock argument, whatever the message
contains (including a client-supplied `timestamp`) — and along any run of
reports whose server clock is non-decreasing, each record's stored instant
is non-decreasing over the record's lifetime. -/
theorem c8_last_seen_server_clock (reports : List Report)
    (reg : MonitoringRegistry) (t0 : ℚ) (hb : timeBounded reg t0)
    (hchain : List.Chain (· ≤ ·) t0 (reports.map Report.mono)) :
    (∀ (message : PyDict) (ip : String) (port : ℤ) (iso : String) (mono : ℚ),
      ((reg.upsert message ip port iso mono).2).last_seen_monotonic = mono) ∧
    (∀ id c, reg.clients.lookup id = some c →
      ∃ c', (runReports reg reports).clients.lookup id = some c' ∧
        c.last_seen_monotonic ≤ c'.last_seen_monotonic) :=
  ⟨fun _ _ _ _ _ => rfl, runReports_lookup_le reports reg t0 hb hchain⟩

/-- C8 witness: a one-record registry and one later report carrying a bogus
client `timestamp`: the record survives with a non-decreased server-written
instant. -/
theorem c8_last_seen_server_clock_witness :
    ∃ c', (runReports
        { offline_after_seconds := 30,
          clients := [("a", ClientState.init "a" "a" "10.0.0.5" 1 "t0" 0)] }
        [{ message := [("client_id", PyValue.str "a"),
             ("timestamp", PyValue.str "2099-01-01T00:00:00+00:00")],
           ip := "10.0.0.5", port := 2, iso := "t1", mono := 5 }]).clients.lookup "a" =
      some c' ∧
      (ClientState.init "a" "a" "10.0.0.5" 1 "t0" 0).last_seen_monotonic ≤
        c'.last_seen_monotonic := by
  refine (c8_last_seen_server_clock _ _ 0 ?_ ?_).2 "a" _ rfl
  · intro p hp
    rw [List.mem_singleton.mp hp]
    exact le_refl _
  · exact List.Chain.cons (by decide) List.Chain.nil
